import Mathlib

/-!
Verification of the renegotiation & amortization engine of
`11_Renegociaciones.py`: the rounding distributor, the date-sequence
generator, the overdue-interest calculator and the installment scheduler,
embedded shallowly over exact rationals (Python floats are modelled as
rationals; `round` is Python 3 round-half-to-even).
-/

/-- Python 3 `round` to an integer: round half to even (banker's rounding). -/
def roundHalfEven (q : ℚ) : ℤ :=
  if q - (⌊q⌋ : ℚ) < 1/2 then ⌊q⌋
  else if 1/2 < q - (⌊q⌋ : ℚ) then ⌊q⌋ + 1
  else if ⌊q⌋ % 2 = 0 then ⌊q⌋ else ⌊q⌋ + 1

/-- Round half away from zero (the semantics the spec names for the
distributor; used only to compare against the code's behaviour). -/
def roundHalfAway (q : ℚ) : ℤ :=
  if 0 ≤ q then ⌊q + 1/2⌋ else ⌈q - 1/2⌉
/-! ## RoundingDistributor (`_distribuir_redondeo`) -/

/-- Embeds `partes[-1] += diff` on a list. -/
def addToLast : List ℤ → ℤ → List ℤ
  | [], _ => []
  | [x], d => [x + d]
  | x :: y :: t, d => x :: addToLast (y :: t) d

/-- Shallow embedding of `_distribuir_redondeo(val_total, n)`. -/
def distribuirRedondeo (valTotal : ℚ) (n : ℤ) : List ℤ :=
  if n ≤ 0 then [0]
  else
    let base := roundHalfEven (valTotal / (n : ℚ))
    let partes := List.replicate n.toNat base
    let diff := roundHalfEven valTotal - partes.sum
    addToLast partes diff

/-! ## Date model (the `datetime` / `relativedelta` fragment the engine uses) -/

structure Date where
  year : ℕ
  month : ℕ
  day : ℕ
deriving DecidableEq

def isLeap (y : ℕ) : Bool :=
  (y % 4 == 0 && y % 100 != 0) || y % 400 == 0

def daysInMonth (y m : ℕ) : ℕ :=
  if m = 1 then 31
  else if m = 2 then (if isLeap y then 29 else 28)
  else if m = 3 then 31
  else if m = 4 then 30
  else if m = 5 then 31
  else if m = 6 then 30
  else if m = 7 then 31
  else if m = 8 then 31
  else if m = 9 then 30
  else if m = 10 then 31
  else if m = 11 then 30
  else 31

/-- Days in the proleptic Gregorian calendar strictly before year `y`. -/
def daysBeforeYear (y : ℕ) : ℤ :=
  365 * ((y : ℤ) - 1) + ((y : ℤ) - 1) / 4 - ((y : ℤ) - 1) / 100 + ((y : ℤ) - 1) / 400

def daysBeforeMonth (y m : ℕ) : ℕ :=
  ((List.range (m - 1)).map (fun i => daysInMonth y (i + 1))).sum

/-- Rata-die ordinal of a date; timestamp subtraction `.days` is the
difference of these ordinals. -/
def toRD (d : Date) : ℤ :=
  daysBeforeYear d.year + (daysBeforeMonth d.year d.month : ℤ) + (d.day : ℤ)

def nextDay (d : Date) : Date :=
  if d.day < daysInMonth d.year d.month then ⟨d.year, d.month, d.day + 1⟩
  else if d.month < 12 then ⟨d.year, d.month + 1, 1⟩
  else ⟨d.year + 1, 1, 1⟩

/-- Embeds `date + pd.Timedelta(days=k)`. -/
def addDays (d : Date) (k : ℕ) : Date := Nat.iterate nextDay k d

/-- Embeds `date + relativedelta(months=1)`: calendar-aware month addition, the
day clamped to the target month's length. -/
def addMonths1 (d : Date) : Date :=
  let y := if d.month = 12 then d.year + 1 else d.year
  let m := if d.month = 12 then 1 else d.month + 1
  ⟨y, m, min d.day (daysInMonth y m)⟩

inductive Periodicidad where
  | Mensual
  | Quincenal
deriving DecidableEq

/-- One periodicity step: `Quincenal` adds 15 days, otherwise one month. -/
def stepDate (p : Periodicidad) (d : Date) : Date :=
  match p with
  | .Quincenal => addDays d 15
  | .Mensual => addMonths1 d

/-- Shallow embedding of `_generar_fechas(primer_pago, n, periodicidad)`. -/
def generarFechas : Date → ℕ → Periodicidad → List Date
  | _, 0, _ => []
  | cur, n + 1, p => cur :: generarFechas (stepDate p cur) n p

/-! ## OverdueInterestCalculator (Parte 1 columns of `df_cliente`) -/

/-- Column `Días Atraso`: `(calc_date - due_date).days` clamped at 0; an absent or
unparseable due date (`NaT`, then `fillna(0)`) yields 0. -/
def diasAtraso (fechaCalculo : Date) (fechaRef : Option Date) : ℤ :=
  match fechaRef with
  | none => 0
  | some d => max 0 (toRD fechaCalculo - toRD d)

/-- Column `Interés Neto = (Monto Base * ((tasa/100)/30) * Días Atraso).round(0)`. -/
def interesNetoInv (monto : ℚ) (tasaMensualPct : ℚ) (dias : ℤ) : ℤ :=
  roundHalfEven (monto * (tasaMensualPct / 100 / 30) * (dias : ℚ))

/-- Column `IVA Interés = (Interés Neto * 0.19).round(0)`. -/
def ivaInteres (neto : ℤ) : ℤ := roundHalfEven ((neto : ℚ) * (19/100))

/-- Column `Total Interés = Interés Neto + IVA Interés`. -/
def totalInteres (neto : ℤ) : ℤ := neto + ivaInteres neto

/-! ## InstallmentScheduler: first loop (`lista_intereses`) -/

/-- Loop-local values of one iteration of the first scheduler loop. -/
structure Cuota where
  dias : ℤ
  saldoTabla : ℤ
  intNet : ℤ
  iva : ℤ
  totalInt : ℤ
deriving DecidableEq

/-- Loop local `int_net = int(round(base_calculo * (tasa_m / 30.0) * dias_r))`. -/
def interesCuota (tasaM : ℚ) (base dias : ℤ) : ℤ :=
  roundHalfEven ((base : ℚ) * (tasaM / 30) * (dias : ℚ))

/-- Loop local `iva_i = int(round(int_net * iva_pct))` with `iva_pct = 0.19`. -/
def ivaCuota (tasaM : ℚ) (base dias : ℤ) : ℤ :=
  roundHalfEven ((interesCuota tasaM base dias : ℚ) * (19/100))

/-- Loop local `total_int_i = int_net + iva_i`. -/
def totalCuota (tasaM : ℚ) (base dias : ℤ) : ℤ :=
  interesCuota tasaM base dias + ivaCuota tasaM base dias

/-- Shallow embedding of the `lista_intereses` loop: iterates over the
capital shares and the reference-date deltas, carrying
`(temp_saldo, temp_interes_previo)`; `caps.isEmpty` marks `i == N - 1`,
where the code forces `dias_r = 0` and `total_int_i = 0`. -/
def planLoop (tasaM : ℚ) : List ℤ → List ℤ → ℤ → ℤ → List Cuota
  | cap :: caps, d :: ds, saldo, prev =>
      let diasR : ℤ := if caps.isEmpty then 0 else d
      let base := saldo - cap + prev
      let totalInt := if caps.isEmpty then 0 else totalCuota tasaM base diasR
      ⟨diasR, base, interesCuota tasaM base diasR, ivaCuota tasaM base diasR,
        totalInt⟩ :: planLoop tasaM caps ds base totalInt
  | _, _, _, _ => []

/-- The list `lista_intereses`: the appended `total_int_i` values. -/
def listaIntereses (tasaM : ℚ) (caps deltas : List ℤ) (saldo : ℤ) : List ℤ :=
  (planLoop tasaM caps deltas saldo 0).map (fun c => c.totalInt)

/-- Pairwise day differences of `fechas_referencia`. -/
def deltasDias : List Date → List ℤ
  | a :: b :: t => (toRD b - toRD a) :: deltasDias (b :: t)
  | _ => []

/-- Embeds `fechas_referencia = list(fechas_pago) + [fecha_posterior]`. -/
def fechasReferencia (fechaCalculo : Date) (n : ℕ) (p : Periodicidad) :
    List Date :=
  let fechas := generarFechas fechaCalculo n p
  fechas ++ [stepDate p (fechas.getLastD fechaCalculo)]

/-- Embeds `cuota_fija = int(round((saldo_deuda_total + sum(lista_intereses)) / N))`. -/
def cuotaFija (saldoDeudaTotal : ℤ) (lista : List ℤ) (n : ℤ) : ℤ :=
  roundHalfEven (((saldoDeudaTotal + lista.sum : ℤ) : ℚ) / (n : ℚ))

/-! ## InstallmentScheduler: second loop (`rows`) -/

/-- Embeds `neto_show = int(round(int_i / 1.19)) if int_i > 0 else 0`. -/
def netoShow (intI : ℤ) : ℤ :=
  if 0 < intI then roundHalfEven ((intI : ℚ) / (119/100)) else 0

/-- Embeds `iva_show = int_i - neto_show`. -/
def ivaShow (intI : ℤ) : ℤ := intI - netoShow intI

/-- One row of `df_plan` (the numeric columns). -/
structure Row where
  dias : ℤ
  saldoDeuda : ℤ
  capital : ℤ
  interesNeto : ℤ
  ivaRow : ℤ
  interes : ℤ
  costos : ℤ
  cuota : ℤ
deriving DecidableEq

/-- Shallow embedding of the `rows` loop, carrying
`(current_saldo, prev_interest)`; `caps.isEmpty` marks `i == N - 1`. -/
def buildRows (cuotaF : ℤ) :
    List ℤ → List ℤ → List ℤ → List ℤ → ℤ → ℤ → List Row
  | cap :: caps, d :: ds, li :: lis, co :: cos, saldo, prev =>
      let diasI : ℤ := if caps.isEmpty then 0 else d
      let saldoTabla := saldo - cap + prev
      { dias := diasI, saldoDeuda := saldoTabla, capital := cap,
        interesNeto := netoShow li, ivaRow := ivaShow li, interes := li,
        costos := co, cuota := cuotaF } ::
        buildRows cuotaF caps ds lis cos saldoTabla li
  | _, _, _, _, _, _ => []

/-- Embeds `total_cuotas_calc` as the sum of the rows column of fixed cuotas. -/
def totalCuotasCalc (rows : List Row) : ℤ := (rows.map (fun r => r.cuota)).sum

/-- Embeds `gran_total_final = total_cuotas_calc + costos_total_extras`. -/
def granTotalFinal (rows : List Row) (costosExtras : ℤ) : ℤ :=
  totalCuotasCalc rows + costosExtras

/-! ## Spec-side definitions used for comparison -/

/-- Modelled from the spec: the balance-evolution recurrence of §4.4 as the
claim states it — `base = opening - capital + prior_total_interest`,
`net = round(base * (rate/30) * days)`, `vat = round(net * 0.19)`,
`total = net + vat`, next opening = base, prior interest = total — applied
to the policy-adjusted day counts (`days[N-1] = 0`). Output tuples are
`(base, net, vat, total)`. -/
def specSchedule (tasaM : ℚ) : List ℤ → List ℤ → ℤ → ℤ → List (ℤ × ℤ × ℤ × ℤ)
  | cap :: caps, d :: ds, opening, prevTot =>
      let base := opening - cap + prevTot
      (base, interesCuota tasaM base d, ivaCuota tasaM base d,
        totalCuota tasaM base d) ::
        specSchedule tasaM caps ds base (totalCuota tasaM base d)
  | _, _, _, _ => []

/-- The spec's day-count adjustment: last entry forced to 0. -/
def zeroLast : List ℤ → List ℤ
  | [] => []
  | [_] => [0]
  | d :: d2 :: t => d :: zeroLast (d2 :: t)


/-! ## Theorems -/


theorem roundHalfEven_intCast (n : ℤ) : roundHalfEven (n : ℚ) = n := by
  unfold roundHalfEven
  simp

theorem roundHalfEven_zero : roundHalfEven 0 = 0 := by
  simpa using roundHalfEven_intCast 0

/-- Rounding an integer plus a strictly-small fraction gives that integer. -/
theorem roundHalfEven_add_small (n : ℤ) (x : ℚ) (hx : |x| < 1/2) :
    roundHalfEven ((n : ℚ) + x) = n := by
  rw [abs_lt] at hx
  unfold roundHalfEven
  rcases le_or_lt 0 x with h0 | h0
  · have hfl : ⌊(n : ℚ) + x⌋ = n := by
      rw [Int.floor_eq_iff]
      exact ⟨by linarith, by linarith⟩
    rw [hfl]
    have hr : (n : ℚ) + x - (n : ℚ) = x := by ring
    rw [hr]
    simp only [if_pos hx.2]
  · have hfl : ⌊(n : ℚ) + x⌋ = n - 1 := by
      rw [Int.floor_eq_iff]
      constructor
      · push_cast; linarith
      · push_cast; linarith
    rw [hfl]
    have hr : (n : ℚ) + x - ((n - 1 : ℤ) : ℚ) = x + 1 := by push_cast; ring
    rw [hr]
    have h1 : ¬ (x + 1 < 1/2) := by linarith
    have h2 : (1:ℚ)/2 < x + 1 := by linarith
    simp only [if_neg h1, if_pos h2]
    omega

/-- Rounding moves a value by at most 1/2. -/
theorem abs_roundHalfEven_sub_le (q : ℚ) : |(roundHalfEven q : ℚ) - q| ≤ 1/2 := by
  unfold roundHalfEven
  have h0 : (0:ℚ) ≤ q - (⌊q⌋ : ℚ) := by
    have := Int.floor_le q; linarith
  have h1 : q - (⌊q⌋ : ℚ) < 1 := by
    have := Int.lt_floor_add_one q; linarith
  by_cases hlt : q - (⌊q⌋ : ℚ) < 1/2
  · simp only [if_pos hlt]
    rw [abs_le]; constructor <;> linarith
  · simp only [if_neg hlt]
    by_cases hgt : 1/2 < q - (⌊q⌋ : ℚ)
    · simp only [if_pos hgt]
      rw [abs_le]; push_cast; constructor <;> linarith
    · have heq : q - (⌊q⌋ : ℚ) = 1/2 := by linarith
      simp only [if_neg hgt]
      by_cases hev : ⌊q⌋ % 2 = 0
      · simp only [if_pos hev]
        rw [abs_le]; constructor <;> linarith
      · simp only [if_neg hev]
        rw [abs_le]; push_cast; constructor <;> linarith

theorem addToLast_sum (l : List ℤ) (d : ℤ) (h : l ≠ []) :
    (addToLast l d).sum = l.sum + d := by
  induction l with
  | nil => simp at h
  | cons x t ih =>
    cases t with
    | nil => simp [addToLast]
    | cons y t2 =>
      simp only [addToLast, List.sum_cons]
      rw [ih (by simp)]
      simp only [List.sum_cons]
      ring

theorem addToLast_length (l : List ℤ) (d : ℤ) :
    (addToLast l d).length = l.length := by
  induction l with
  | nil => simp [addToLast]
  | cons x t ih =>
    cases t with
    | nil => simp [addToLast]
    | cons y t2 =>
      simp only [addToLast, List.length_cons]
      rw [ih]
      simp

theorem addToLast_replicate (k : ℕ) (b d : ℤ) :
    addToLast (List.replicate (k + 1) b) d =
      List.replicate k b ++ [b + d] := by
  induction k with
  | zero => simp [addToLast, List.replicate]
  | succ m ih =>
    have h1 : List.replicate (m + 2) b = b :: List.replicate (m + 1) b := rfl
    have h2 : List.replicate (m + 1) b = b :: List.replicate m b := rfl
    rw [h1]
    rw [show addToLast (b :: List.replicate (m + 1) b) d =
        b :: addToLast (List.replicate (m + 1) b) d from by
      rw [h2]; rfl]
    rw [ih, h2]
    simp

/-- C1 core: for `n > 0` the distributor returns `n` parts summing to
`round(total)`. -/
theorem distribuirRedondeo_spec (t : ℚ) (n : ℤ) (hn : 0 < n) :
    (distribuirRedondeo t n).length = n.toNat ∧
    (distribuirRedondeo t n).sum = roundHalfEven t := by
  unfold distribuirRedondeo
  rw [if_neg (by omega)]
  have hne : List.replicate n.toNat (roundHalfEven (t / (n:ℚ))) ≠ [] := by
    intro h
    have hlen := congrArg List.length h
    simp at hlen
    omega
  refine ⟨?_, ?_⟩
  · rw [addToLast_length]; simp
  · rw [addToLast_sum _ _ hne]; ring

theorem generarFechas_length (d : Date) (n : ℕ) (p : Periodicidad) :
    (generarFechas d n p).length = n := by
  induction n generalizing d with
  | zero => rfl
  | succ m ih => simp [generarFechas, ih]

theorem generarFechas_get (d : Date) (n : ℕ) (p : Periodicidad) (i : ℕ)
    (h : i < n) :
    (generarFechas d n p)[i]? = some (Nat.iterate (stepDate p) i d) := by
  induction n generalizing d i with
  | zero => omega
  | succ m ih =>
    cases i with
    | zero => simp [generarFechas]
    | succ j =>
      have hstep : generarFechas d (m + 1) p =
          d :: generarFechas (stepDate p d) m p := rfl
      rw [hstep, List.getElem?_cons_succ, ih (stepDate p d) j (by omega),
        Function.iterate_succ_apply]

/-! ## Helper lemmas about the loop embeddings -/

theorem interesCuota_dias_zero (t : ℚ) (b : ℤ) : interesCuota t b 0 = 0 := by
  unfold interesCuota
  simp [roundHalfEven_zero]

theorem ivaCuota_dias_zero (t : ℚ) (b : ℤ) : ivaCuota t b 0 = 0 := by
  unfold ivaCuota
  rw [interesCuota_dias_zero]
  simp [roundHalfEven_zero]

theorem totalCuota_dias_zero (t : ℚ) (b : ℤ) : totalCuota t b 0 = 0 := by
  unfold totalCuota
  rw [interesCuota_dias_zero, ivaCuota_dias_zero]
  rfl

theorem planLoop_cons_eq (tasaM : ℚ) (cap d : ℤ) (caps ds : List ℤ) (s p : ℤ) :
    planLoop tasaM (cap :: caps) (d :: ds) s p =
      { dias := if caps.isEmpty then 0 else d,
        saldoTabla := s - cap + p,
        intNet := interesCuota tasaM (s - cap + p) (if caps.isEmpty then 0 else d),
        iva := ivaCuota tasaM (s - cap + p) (if caps.isEmpty then 0 else d),
        totalInt := if caps.isEmpty then 0
          else totalCuota tasaM (s - cap + p) (if caps.isEmpty then 0 else d) } ::
      planLoop tasaM caps ds (s - cap + p)
        (if caps.isEmpty then 0
          else totalCuota tasaM (s - cap + p) (if caps.isEmpty then 0 else d)) := rfl

theorem buildRows_cons_eq (cf cap d li co : ℤ) (caps ds lis cos : List ℤ)
    (s p : ℤ) :
    buildRows cf (cap :: caps) (d :: ds) (li :: lis) (co :: cos) s p =
      { dias := if caps.isEmpty then 0 else d, saldoDeuda := s - cap + p,
        capital := cap, interesNeto := netoShow li, ivaRow := ivaShow li,
        interes := li, costos := co, cuota := cf } ::
      buildRows cf caps ds lis cos (s - cap + p) li := rfl

theorem specSchedule_cons_eq (tasaM : ℚ) (cap d : ℤ) (caps ds : List ℤ)
    (s p : ℤ) :
    specSchedule tasaM (cap :: caps) (d :: ds) s p =
      (s - cap + p, interesCuota tasaM (s - cap + p) d,
        ivaCuota tasaM (s - cap + p) d, totalCuota tasaM (s - cap + p) d) ::
      specSchedule tasaM caps ds (s - cap + p)
        (totalCuota tasaM (s - cap + p) d) := rfl

theorem getLast?_cons_of_ne_nil {α : Type} (a : α) (l : List α) (h : l ≠ []) :
    (a :: l).getLast? = l.getLast? := by
  cases l with
  | nil => exact absurd rfl h
  | cons b t => exact List.getLast?_cons_cons

/-- The first scheduler loop compared index-by-index with the spec
recurrence on the policy-adjusted day counts. -/
theorem planLoop_eq_specSchedule (tasaM : ℚ) (caps ds : List ℤ) (s p : ℤ)
    (hlen : caps.length = ds.length) :
    (planLoop tasaM caps ds s p).map
        (fun c => (c.saldoTabla, c.intNet, c.iva, c.totalInt)) =
      specSchedule tasaM caps (zeroLast ds) s p := by
  induction caps generalizing ds s p with
  | nil =>
    cases ds with
    | nil => rfl
    | cons d ds2 => simp at hlen
  | cons cap caps ih =>
    cases ds with
    | nil => simp at hlen
    | cons d ds2 =>
      cases caps with
      | nil =>
        cases ds2 with
        | cons d2 ds3 => simp at hlen
        | nil =>
          rw [planLoop_cons_eq]
          show _ = specSchedule tasaM [cap] [0] s p
          rw [specSchedule_cons_eq]
          simp [totalCuota_dias_zero]
          rfl
      | cons c2 caps2 =>
        cases ds2 with
        | nil => simp at hlen
        | cons d2 ds3 =>
          rw [planLoop_cons_eq]
          show _ = specSchedule tasaM (cap :: c2 :: caps2)
            (d :: zeroLast (d2 :: ds3)) s p
          rw [specSchedule_cons_eq, List.map_cons]
          have hne : (c2 :: caps2).isEmpty = false := rfl
          rw [hne]
          simp only [Bool.false_eq_true, if_false]
          exact congrArg _ (ih (d2 :: ds3) (s - cap + p) _ (by simpa using hlen))

/-- The last record of the first scheduler loop: zero days and zero
interest components. -/
theorem planLoop_getLast (tasaM : ℚ) (caps ds : List ℤ) (s p : ℤ)
    (hne : caps ≠ []) (hlen : caps.length = ds.length) :
    ∃ c : Cuota, (planLoop tasaM caps ds s p).getLast? = some c ∧
      c.dias = 0 ∧ c.intNet = 0 ∧ c.iva = 0 ∧ c.totalInt = 0 := by
  induction caps generalizing ds s p with
  | nil => exact absurd rfl hne
  | cons cap caps ih =>
    cases ds with
    | nil => simp at hlen
    | cons d ds2 =>
      cases caps with
      | nil =>
        cases ds2 with
        | cons d2 ds3 => simp at hlen
        | nil =>
          refine ⟨⟨0, s - cap + p, 0, 0, 0⟩, ?_, rfl, rfl, rfl, rfl⟩
          rw [planLoop_cons_eq]
          simp [interesCuota_dias_zero, ivaCuota_dias_zero]
          rfl
      | cons c2 caps2 =>
        cases ds2 with
        | nil => simp at hlen
        | cons d2 ds3 =>
          obtain ⟨c, hc, h1, h2, h3, h4⟩ :=
            ih (d2 :: ds3) (s - cap + p)
              (if (c2 :: caps2).isEmpty then 0
                else totalCuota tasaM (s - cap + p)
                  (if (c2 :: caps2).isEmpty then 0 else d))
              (by simp) (by simpa using hlen)
          refine ⟨c, ?_, h1, h2, h3, h4⟩
          rw [planLoop_cons_eq, getLast?_cons_of_ne_nil _ _ ?_, hc]
          rw [planLoop_cons_eq]
          simp

/-- The second (row-building) loop replays the first loop's state exactly:
same day counts, same running balance, same interest. -/
theorem buildRows_replay (tasaM : ℚ) (cf : ℤ) (caps ds cos : List ℤ)
    (s p : ℤ) (h1 : caps.length = ds.length) (h2 : caps.length = cos.length) :
    (buildRows cf caps ds
        ((planLoop tasaM caps ds s p).map (fun c => c.totalInt)) cos s p).map
        (fun r => (r.dias, r.saldoDeuda, r.interes)) =
      (planLoop tasaM caps ds s p).map
        (fun c => (c.dias, c.saldoTabla, c.totalInt)) := by
  induction caps generalizing ds cos s p with
  | nil =>
    cases ds with
    | nil => rfl
    | cons d ds2 => simp at h1
  | cons cap caps ih =>
    cases ds with
    | nil => simp at h1
    | cons d ds2 =>
      cases cos with
      | nil => simp at h2
      | cons co cos2 =>
        rw [planLoop_cons_eq, List.map_cons, buildRows_cons_eq, List.map_cons,
          List.map_cons]
        exact congrArg (List.cons _)
          (ih ds2 cos2 (s - cap + p) _ (by simpa using h1) (by simpa using h2))

/-- The row loop copies the distributed cost shares through unchanged. -/
theorem buildRows_map_costos (cf : ℤ) (caps ds lis cos : List ℤ) (s p : ℤ)
    (h1 : caps.length = ds.length) (h2 : caps.length = lis.length)
    (h3 : caps.length = cos.length) :
    (buildRows cf caps ds lis cos s p).map (fun r => r.costos) = cos := by
  induction caps generalizing ds lis cos s p with
  | nil =>
    cases cos with
    | nil => rfl
    | cons co cos2 => simp at h3
  | cons cap caps ih =>
    cases ds with
    | nil => simp at h1
    | cons d ds2 =>
      cases lis with
      | nil => simp at h2
      | cons li lis2 =>
        cases cos with
        | nil => simp at h3
        | cons co cos2 =>
          rw [buildRows_cons_eq, List.map_cons]
          rw [ih ds2 lis2 cos2 (s - cap + p) li (by simpa using h1)
            (by simpa using h2) (by simpa using h3)]

theorem sum_map_add_row (rows : List Row) (f g : Row → ℤ) :
    (rows.map (fun r => f r + g r)).sum = (rows.map f).sum + (rows.map g).sum := by
  induction rows with
  | nil => rfl
  | cons r t ih =>
    simp only [List.map_cons, List.sum_cons, ih]
    ring

/-- Inverting the gross-up: for a nonnegative net interest `n`, the row
decomposition `neto_show = round(total / 1.19)` recovers `n` exactly. -/
theorem netoShow_totalInteres (n : ℤ) (hn : 0 ≤ n) :
    netoShow (totalInteres n) = n := by
  have hiva : totalInteres n = n + ivaInteres n := rfl
  rcases eq_or_lt_of_le hn with h0 | h0
  · rw [← h0]
    have h1 : ivaInteres 0 = 0 := by
      unfold ivaInteres
      norm_num [roundHalfEven_zero]
    have h2 : totalInteres 0 = 0 := by
      unfold totalInteres
      rw [h1]
      rfl
    rw [h2]
    unfold netoShow
    simp
  · have hr := abs_le.mp (abs_roundHalfEven_sub_le ((n : ℚ) * (19/100)))
    have hn1 : (1:ℚ) ≤ (n:ℚ) := by exact_mod_cast h0
    have hrge : (0:ℤ) ≤ ivaInteres n := by
      have hlow : ((n:ℚ) * (19/100)) - 1/2 ≤ ((ivaInteres n : ℤ) : ℚ) := by
        unfold ivaInteres
        linarith [hr.1]
      have hgt : (-1 : ℚ) < ((ivaInteres n : ℤ) : ℚ) := by nlinarith
      have : (-1 : ℤ) < ivaInteres n := by exact_mod_cast hgt
      omega
    have hTpos : 0 < n + ivaInteres n := by omega
    unfold netoShow
    rw [hiva, if_pos hTpos]
    have hdec : ((n + ivaInteres n : ℤ) : ℚ) / (119/100) =
        (n : ℚ) + (((ivaInteres n : ℤ) : ℚ) - (n:ℚ) * (19/100)) * (100/119) := by
      push_cast
      ring
    rw [hdec]
    apply roundHalfEven_add_small
    rw [abs_mul]
    have h100 : |(100:ℚ)/119| = 100/119 := by norm_num
    rw [h100]
    have habs : |((ivaInteres n : ℤ) : ℚ) - (n:ℚ)*(19/100)| ≤ 1/2 := by
      unfold ivaInteres
      exact abs_roundHalfEven_sub_le _
    nlinarith [abs_nonneg (((ivaInteres n : ℤ) : ℚ) - (n:ℚ)*(19/100))]

/-! ## Claim theorems -/

/-- C1: for every real `total` and every integer `n > 0`, the rounding
distributor returns exactly `n` parts whose sum equals `round(total)`
exactly — no currency is lost or fabricated by rounding. -/
theorem rounding_conservation (t : ℚ) (n : ℤ) (hn : 0 < n) :
    (distribuirRedondeo t n).length = n.toNat ∧
    (distribuirRedondeo t n).sum = roundHalfEven t :=
  distribuirRedondeo_spec t n hn

/-- Witness for C1 at `total = 7/2`, `n = 3`. -/
theorem rounding_conservation_witness :
    0 < (3:ℤ) ∧ ((distribuirRedondeo (7/2) 3).length = (3:ℤ).toNat ∧
      (distribuirRedondeo (7/2) 3).sum = roundHalfEven (7/2)) :=
  ⟨by norm_num, rounding_conservation (7/2) 3 (by norm_num)⟩

/-- C2: the scheduler's first loop realizes exactly the balance-evolution
recurrence: `base_i = opening_i - caps_i + prior_total_interest_i` (prior
interest 0 at `i = 0`), `net_i = round(base_i * (rate/30) * days_i)` on the
policy-adjusted day counts (`days[N-1] = 0`), `vat_i = round(net_i * 0.19)`,
`total_i = net_i + vat_i`, and the next opening balance is `base_i`. -/
theorem scheduler_balance_recurrence (tasaM : ℚ) (caps ds : List ℤ)
    (saldo : ℤ) (hlen : caps.length = ds.length) :
    (planLoop tasaM caps ds saldo 0).map
        (fun c => (c.saldoTabla, c.intNet, c.iva, c.totalInt)) =
      specSchedule tasaM caps (zeroLast ds) saldo 0 :=
  planLoop_eq_specSchedule tasaM caps ds saldo 0 hlen

/-- Witness for C2 on a 2-installment schedule. -/
theorem scheduler_balance_recurrence_witness :
    ([5, 5] : List ℤ).length = ([31, 30] : List ℤ).length ∧
    (planLoop (1/10) [5, 5] [31, 30] 10 0).map
        (fun c => (c.saldoTabla, c.intNet, c.iva, c.totalInt)) =
      specSchedule (1/10) [5, 5] (zeroLast [31, 30]) 10 0 :=
  ⟨by decide, scheduler_balance_recurrence (1/10) [5, 5] [31, 30] 10 (by decide)⟩

/-- C3: for every schedule of size `N ≥ 1`, the last installment has
`days = 0` and `interest_net = vat = interest_total = 0`, whatever the raw
day count between the last payment date and the trailing reference date. -/
theorem final_installment_zero_interest (tasaM : ℚ) (caps ds : List ℤ)
    (saldo : ℤ) (hne : caps ≠ []) (hlen : caps.length = ds.length) :
    ∃ c : Cuota, (planLoop tasaM caps ds saldo 0).getLast? = some c ∧
      c.dias = 0 ∧ c.intNet = 0 ∧ c.iva = 0 ∧ c.totalInt = 0 :=
  planLoop_getLast tasaM caps ds saldo 0 hne hlen

/-- Witness for C3 on a 2-installment schedule with a nonzero raw final
day count. -/
theorem final_installment_zero_interest_witness :
    (([5, 5] : List ℤ) ≠ []) ∧
    (∃ c : Cuota, (planLoop (1/10) [5, 5] [31, 99] 10 0).getLast? = some c ∧
      c.dias = 0 ∧ c.intNet = 0 ∧ c.iva = 0 ∧ c.totalInt = 0) :=
  ⟨by decide, final_installment_zero_interest (1/10) [5, 5] [31, 99] 10
    (by decide) (by decide)⟩

/-- C4 counterexample: the distributor puts the rounding remainder in the
*last* slot, so the capital shares of 1,000,000 over 3 installments are not
`[333334, 333333, 333333]` as the claim states. -/
theorem worked_scenario_counterexample :
    distribuirRedondeo 1000000 3 ≠ [333334, 333333, 333333] := by
  have hb : roundHalfEven ((1000000 : ℚ) / ((3:ℤ) : ℚ)) = 333333 := by
    rw [roundHalfEven]
    norm_num
  have hT : roundHalfEven (1000000 : ℚ) = 1000000 := by
    rw [roundHalfEven]
    norm_num
  unfold distribuirRedondeo
  rw [if_neg (by norm_num), hb, hT]
  decide

/-- C4 amended: with balance 1,000,000 all capital, rate 0.33%, `N = 3`,
Monthly, anchor 2024-01-03: capital shares `[333333, 333333, 333334]`
(remainder in the last slot), payment dates 2024-01-03, 2024-02-03,
2024-03-03, and the last installment's interest is 0. -/
theorem worked_scenario_amended :
    distribuirRedondeo 1000000 3 = [333333, 333333, 333334] ∧
    generarFechas (Date.mk 2024 1 3) 3 .Mensual =
      [Date.mk 2024 1 3, Date.mk 2024 2 3, Date.mk 2024 3 3] ∧
    (listaIntereses (33/10000) (distribuirRedondeo 1000000 3)
        (deltasDias (fechasReferencia (Date.mk 2024 1 3) 3 .Mensual))
        1000000).getLast? = some 0 := by
  have hcaps : distribuirRedondeo 1000000 3 = [333333, 333333, 333334] := by
    have hb : roundHalfEven ((1000000 : ℚ) / ((3:ℤ) : ℚ)) = 333333 := by
      rw [roundHalfEven]
      norm_num
    have hT : roundHalfEven (1000000 : ℚ) = 1000000 := by
      rw [roundHalfEven]
      norm_num
    unfold distribuirRedondeo
    rw [if_neg (by norm_num), hb, hT]
    decide
  have hds : deltasDias (fechasReferencia (Date.mk 2024 1 3) 3 .Mensual) =
      [31, 29, 31] := by decide
  refine ⟨hcaps, by decide, ?_⟩
  rw [hcaps, hds]
  unfold listaIntereses
  obtain ⟨c, hc, _, _, _, h4⟩ :=
    planLoop_getLast (33/10000) [333333, 333333, 333334] [31, 29, 31]
      1000000 0 (by decide) (by decide)
  rw [List.getLast?_map, hc]
  simp [h4]

/-- C5 counterexample: at `total = 1`, `n = 2` the code returns `[0, 1]`
(Python banker's rounding gives base `round(1/2) = 0`), not the `[1, 0]`
that a round-half-away-from-zero base would produce. -/
theorem distributor_semantics_counterexample :
    distribuirRedondeo 1 2 ≠
      List.replicate ((2:ℤ).toNat - 1) (roundHalfAway ((1 : ℚ) / ((2:ℤ) : ℚ))) ++
        [roundHalfAway ((1 : ℚ) / ((2:ℤ) : ℚ)) +
          (roundHalfAway 1 - 2 * roundHalfAway ((1 : ℚ) / ((2:ℤ) : ℚ)))] := by
  have hb : roundHalfEven ((1 : ℚ) / ((2:ℤ) : ℚ)) = 0 := by
    rw [roundHalfEven]
    norm_num
  have hT : roundHalfEven (1 : ℚ) = 1 := by
    rw [roundHalfEven]
    norm_num
  have ha : roundHalfAway ((1 : ℚ) / ((2:ℤ) : ℚ)) = 1 := by
    rw [roundHalfAway]
    norm_num
  have ha1 : roundHalfAway (1 : ℚ) = 1 := by
    rw [roundHalfAway]
    norm_num
  unfold distribuirRedondeo
  rw [if_neg (by norm_num), hb, hT, ha, ha1]
  decide

/-- C5 amended: for `n > 0` the distributor computes
`base = round(total/n)` with Python's round-half-to-even semantics, fills
every slot except the last with `base`, and adds the whole difference
`round(total) - n*base` to the last slot. -/
theorem distributor_semantics_amended (t : ℚ) (n : ℤ) (hn : 0 < n) :
    distribuirRedondeo t n =
      List.replicate (n.toNat - 1) (roundHalfEven (t / (n : ℚ))) ++
        [roundHalfEven (t / (n : ℚ)) +
          (roundHalfEven t - n * roundHalfEven (t / (n : ℚ)))] := by
  unfold distribuirRedondeo
  rw [if_neg (by omega)]
  obtain ⟨k, hk⟩ : ∃ k, n.toNat = k + 1 := ⟨n.toNat - 1, by omega⟩
  rw [hk, addToLast_replicate]
  have hsum : (List.replicate (k + 1) (roundHalfEven (t / (n:ℚ)))).sum =
      ((k:ℤ) + 1) * roundHalfEven (t / (n:ℚ)) := by
    rw [List.sum_replicate, nsmul_eq_mul]
    push_cast
    ring
  rw [hsum]
  have hn' : ((k:ℤ) + 1) = n := by omega
  rw [hn']
  simp

/-- Witness for C5 amended at `total = 10`, `n = 4`. -/
theorem distributor_semantics_amended_witness :
    0 < (4:ℤ) ∧
    distribuirRedondeo 10 4 =
      List.replicate ((4:ℤ).toNat - 1) (roundHalfEven ((10:ℚ) / ((4:ℤ) : ℚ))) ++
        [roundHalfEven ((10:ℚ) / ((4:ℤ) : ℚ)) +
          (roundHalfEven (10:ℚ) - 4 * roundHalfEven ((10:ℚ) / ((4:ℤ) : ℚ)))] :=
  ⟨by norm_num, distributor_semantics_amended 10 4 (by norm_num)⟩

/-- C6: the final plan total (`gran_total_final`) equals the sum over all
installments of the per-installment total (fixed `cuota` plus distributed
cost share): ancillary costs, already distributed into the rows, are
counted exactly once. -/
theorem plan_total_no_double_count (cf saldo c n : ℤ)
    (caps ds lis : List ℤ) (hn : 0 < n)
    (h1 : caps.length = ds.length) (h2 : caps.length = lis.length)
    (h3 : caps.length = n.toNat) :
    granTotalFinal
        (buildRows cf caps ds lis (distribuirRedondeo (c : ℚ) n) saldo 0) c =
      ((buildRows cf caps ds lis (distribuirRedondeo (c : ℚ) n) saldo 0).map
        (fun r => r.cuota + r.costos)).sum := by
  have hcos := distribuirRedondeo_spec (c : ℚ) n hn
  have hmapcos := buildRows_map_costos cf caps ds lis
    (distribuirRedondeo (c : ℚ) n) saldo 0 h1 h2 (by rw [hcos.1, h3])
  rw [sum_map_add_row, hmapcos, hcos.2, roundHalfEven_intCast]
  rfl

/-- Witness for C6: 3 installments, fixed cuota 100, costs 10. -/
theorem plan_total_no_double_count_witness :
    0 < (3:ℤ) ∧
    granTotalFinal
        (buildRows 100 [1, 2, 3] [31, 29, 31] [7, 8, 0]
          (distribuirRedondeo ((10:ℤ) : ℚ) 3) 6 0) 10 =
      ((buildRows 100 [1, 2, 3] [31, 29, 31] [7, 8, 0]
          (distribuirRedondeo ((10:ℤ) : ℚ) 3) 6 0).map
        (fun r => r.cuota + r.costos)).sum :=
  ⟨by norm_num, plan_total_no_double_count 100 6 10 3
    [1, 2, 3] [31, 29, 31] [7, 8, 0] (by norm_num) (by decide) (by decide)
    (by decide)⟩

/-- C7: VAT derivation invariant — for the per-invoice overdue results and
the per-installment interest values, `vat = round(net * 0.19)` and
`total = net + vat`; and the row decomposition (`neto_show`, `iva_show`)
of any engine interest total also satisfies both identities. -/
theorem vat_derivation_invariant :
    (∀ (monto tasa : ℚ) (dias : ℤ),
        ivaInteres (interesNetoInv monto tasa dias) =
          roundHalfEven ((interesNetoInv monto tasa dias : ℚ) * (19/100)) ∧
        totalInteres (interesNetoInv monto tasa dias) =
          interesNetoInv monto tasa dias +
            ivaInteres (interesNetoInv monto tasa dias)) ∧
    (∀ (tasaM : ℚ) (base dias : ℤ),
        ivaCuota tasaM base dias =
          roundHalfEven ((interesCuota tasaM base dias : ℚ) * (19/100)) ∧
        totalCuota tasaM base dias =
          interesCuota tasaM base dias + ivaCuota tasaM base dias) ∧
    (∀ n : ℤ, 0 ≤ n →
        netoShow (totalInteres n) + ivaShow (totalInteres n) = totalInteres n ∧
        ivaShow (totalInteres n) =
          roundHalfEven ((netoShow (totalInteres n) : ℚ) * (19/100))) := by
  refine ⟨fun m t d => ⟨rfl, rfl⟩, fun t b d => ⟨rfl, rfl⟩, fun n hn => ⟨?_, ?_⟩⟩
  · unfold ivaShow
    ring
  · unfold ivaShow
    rw [netoShow_totalInteres n hn]
    unfold totalInteres ivaInteres
    omega

/-- Witness for C7 at `net = 8` (total `8 + round(1.52) = 10`). -/
theorem vat_derivation_invariant_witness :
    (0:ℤ) ≤ 8 ∧
    (netoShow (totalInteres 8) + ivaShow (totalInteres 8) = totalInteres 8 ∧
      ivaShow (totalInteres 8) =
        roundHalfEven ((netoShow (totalInteres 8) : ℚ) * (19/100))) :=
  ⟨by norm_num, vat_derivation_invariant.2.2 8 (by norm_num)⟩

/-- C8: the generated date sequence has `n` dates, starts exactly at the
anchor, each next date is one periodicity step (15 days or one
calendar-aware month) after the previous, and `generate(2024-01-31, 2,
Monthly)` lands on 2024-02-29, the last valid day of February. -/
theorem date_sequence_generation :
    (∀ (d : Date) (n : ℕ) (p : Periodicidad),
      (generarFechas d n p).length = n) ∧
    (∀ (d : Date) (n : ℕ) (p : Periodicidad), 0 < n →
      (generarFechas d n p).head? = some d) ∧
    (∀ (d : Date) (n : ℕ) (p : Periodicidad) (i : ℕ), i + 1 < n →
      (generarFechas d n p)[i + 1]? =
        ((generarFechas d n p)[i]?).map (stepDate p)) ∧
    generarFechas (Date.mk 2024 1 31) 2 .Mensual =
      [Date.mk 2024 1 31, Date.mk 2024 2 29] := by
  refine ⟨generarFechas_length, ?_, ?_, by decide⟩
  · intro d n p hn
    cases n with
    | zero => omega
    | succ m => rfl
  · intro d n p i h
    rw [generarFechas_get d n p (i + 1) h, generarFechas_get d n p i (by omega)]
    simp [Function.iterate_succ_apply']

/-- Witness for C8 on the 2024-01-31 Monthly sequence. -/
theorem date_sequence_generation_witness :
    (generarFechas (Date.mk 2024 1 31) 2 .Mensual).head? =
      some (Date.mk 2024 1 31) ∧
    (generarFechas (Date.mk 2024 1 31) 2 .Mensual)[0 + 1]? =
      ((generarFechas (Date.mk 2024 1 31) 2 .Mensual)[0]?).map
        (stepDate .Mensual) :=
  ⟨date_sequence_generation.2.1 (Date.mk 2024 1 31) 2 .Mensual (by norm_num),
    date_sequence_generation.2.2.1 (Date.mk 2024 1 31) 2 .Mensual 0
      (by norm_num)⟩

/-- C9: overdue days are `max(0, calc - due)`: never negative, 0 when the
due date is absent or later than the calculation date, and a zero day
count makes net, VAT and total overdue interest all 0. -/
theorem overdue_day_clamping :
    (∀ (fc : Date) (od : Option Date), 0 ≤ diasAtraso fc od) ∧
    (∀ fc : Date, diasAtraso fc none = 0) ∧
    (∀ (fc d : Date), toRD fc < toRD d → diasAtraso fc (some d) = 0) ∧
    (∀ (monto tasa : ℚ) (fc : Date) (od : Option Date),
      diasAtraso fc od = 0 →
      interesNetoInv monto tasa (diasAtraso fc od) = 0 ∧
      ivaInteres (interesNetoInv monto tasa (diasAtraso fc od)) = 0 ∧
      totalInteres (interesNetoInv monto tasa (diasAtraso fc od)) = 0) := by
  refine ⟨?_, fun fc => rfl, ?_, ?_⟩
  · intro fc od
    cases od with
    | none => simp [diasAtraso]
    | some d => simp [diasAtraso]
  · intro fc d h
    simp only [diasAtraso]
    omega
  · intro m t fc od h
    rw [h]
    have h1 : interesNetoInv m t 0 = 0 := by
      unfold interesNetoInv
      norm_num [roundHalfEven_zero]
    have h2 : ivaInteres (0:ℤ) = 0 := by
      unfold ivaInteres
      norm_num [roundHalfEven_zero]
    rw [h1]
    refine ⟨rfl, h2, ?_⟩
    unfold totalInteres
    rw [h2]
    rfl

/-- Witness for C9: a due date after the calculation date, and an absent
due date. -/
theorem overdue_day_clamping_witness :
    diasAtraso (Date.mk 2024 1 3) (some (Date.mk 2024 2 1)) = 0 ∧
    (interesNetoInv 100 (33/100) (diasAtraso (Date.mk 2024 1 3) none) = 0 ∧
      ivaInteres
        (interesNetoInv 100 (33/100) (diasAtraso (Date.mk 2024 1 3) none)) = 0 ∧
      totalInteres
        (interesNetoInv 100 (33/100)
          (diasAtraso (Date.mk 2024 1 3) none)) = 0) :=
  ⟨overdue_day_clamping.2.2.1 (Date.mk 2024 1 3) (Date.mk 2024 2 1)
      (by decide),
    overdue_day_clamping.2.2.2 100 (33/100) (Date.mk 2024 1 3) none rfl⟩

/-- C10: the second (row-building) loop replays the first
(interest-computation) loop exactly: at each index, the row's balance
equals the first loop's `base_calculo`, its interest equals
`lista_intereses[i]`, and its day count equals the first loop's `dias_r`. -/
theorem rows_loop_replays_interest_loop (tasaM : ℚ) (cf saldo : ℤ)
    (caps ds cos : List ℤ) (h1 : caps.length = ds.length)
    (h2 : caps.length = cos.length) :
    (buildRows cf caps ds (listaIntereses tasaM caps ds saldo) cos saldo 0).map
        (fun r => (r.dias, r.saldoDeuda, r.interes)) =
      (planLoop tasaM caps ds saldo 0).map
        (fun c => (c.dias, c.saldoTabla, c.totalInt)) :=
  buildRows_replay tasaM cf caps ds cos saldo 0 h1 h2

/-- Witness for C10 on a 3-installment schedule. -/
theorem rows_loop_replays_interest_loop_witness :
    ([4, 4, 2] : List ℤ).length = ([31, 29, 31] : List ℤ).length ∧
    (buildRows 7 [4, 4, 2] [31, 29, 31]
        (listaIntereses (1/10) [4, 4, 2] [31, 29, 31] 10) [3, 3, 4] 10 0).map
        (fun r => (r.dias, r.saldoDeuda, r.interes)) =
      (planLoop (1/10) [4, 4, 2] [31, 29, 31] 10 0).map
        (fun c => (c.dias, c.saldoTabla, c.totalInt)) :=
  ⟨by decide, rows_loop_replays_interest_loop (1/10) 7 10 [4, 4, 2]
    [31, 29, 31] [3, 3, 4] (by decide) (by decide)⟩
